import Mathlib

/-!
Verification development for the drake incremental build engine
(src/drake/__init__.py).  Python strings are modelled as lists of
characters where string surgery matters (Path, DepFile), and as Lean
`String` where only equality matters (node names in the run protocol).
The cooperative scheduler (drake/sched.py) is not part of the sources;
where its behaviour is needed it is modelled from the spec and marked
as such.
-/

namespace Drake

/-- Python `str`, modelled as a list of characters. -/
abbrev PStr := List Char

/-- Python `s.split(sep)` for a one-character separator.  Always returns a
non-empty list; splitting the empty string yields `[[]]`, as in Python. -/
def pySplit (sep : Char) : PStr → List PStr
  | [] => [[]]
  | c :: rest =>
    let r := pySplit sep rest
    if c = sep then [] :: r
    else (c :: r.headI) :: r.tail

/-- Python `sep.join(parts)` for a one-character separator. -/
def pyJoin (sep : Char) : List PStr → PStr
  | [] => []
  | [x] => x
  | x :: xs => x ++ sep :: pyJoin sep xs

end Drake

namespace Drake

/-- `drake.Path` (the fields used by the engine): the component list
`__path`, the `absolute` flag and the `virtual` flag. -/
structure Path where
  comps : List PStr
  absolute : Bool
  virtual : Bool
deriving DecidableEq

/-- `Path.__init__` on a string argument (POSIX branch): a leading `//`
marks the path virtual and is stripped, the rest is split on `/`,
absoluteness is an empty first component, and a trailing empty component
is dropped when there is more than one component. -/
def Path.init (s : PStr) : Path :=
  if s = [] then { comps := [], absolute := false, virtual := false }
  else
    let bv : PStr × Bool :=
      match s with
      | '/' :: '/' :: rest => (rest, true)
      | _ => (s, false)
    let comps0 := pySplit '/' bv.1
    let abs := decide (comps0.headI = [])
    let comps :=
      if comps0.length > 1 ∧ comps0.getLast? = some [] then comps0.dropLast
      else comps0
    { comps := comps, absolute := abs, virtual := bv.2 }

/-- `Path.__str__`: `//` prefix when virtual, `"."` for the empty
component list, otherwise the components joined with the separator. -/
def Path.toStr (p : Path) : PStr :=
  (if p.virtual then ['/', '/'] else []) ++
    (if p.comps = [] then ['.'] else pyJoin '/' p.comps)

/-- `Path.__eq__`: component-wise comparison after neutralising the empty
list to `["."]`.  Neither the `absolute` nor the `virtual` flag takes
part in the comparison. -/
def Path.beq (a b : Path) : Bool :=
  decide ((if a.comps = [] then [['.']] else a.comps)
    = (if b.comps = [] then [['.']] else b.comps))

/-- One record of a dependency file: the entry hash, the absolute node
name (`str(node.name())`) and the node type tag (`node.drake_type()`). -/
structure DepEntry where
  hash : PStr
  name : PStr
  dtype : PStr
deriving DecidableEq

/-- `DepFile.update`: one line per registered file,
`<hash> <name> <type-tag>\n`. -/
def DepFile.updateContent (entries : List DepEntry) : PStr :=
  (entries.map (fun e => e.hash ++ ' ' :: e.name ++ ' ' :: e.dtype ++ ['\n'])).flatten

/-- The per-line parse of `DepFile.read`: split on single spaces, the
first chunk is the hash, the last chunk is the type tag, and the name is
everything between, rejoined with spaces. -/
def DepFile.parseLine (line : PStr) : PStr × PStr × PStr :=
  let chunks := pySplit ' ' line
  (chunks.headI, pyJoin ' ' (chunks.drop 1).dropLast, (chunks.getLastD []))

/-- `DepFile.read` over the whole (newline-terminated) file content: the
resulting `__sha1` association from `str(Path(name))` to
`(hash, type-tag)`.  Python iterates the lines of the file and chops the
trailing newline of each; for `\n`-terminated content (which is what
`update` writes) that is splitting on `\n` and dropping the final empty
chunk. -/
def DepFile.readContent (content : PStr) : List (PStr × PStr × PStr) :=
  ((pySplit '\n' content).dropLast).map fun line =>
    let c := DepFile.parseLine line
    ((Path.init c.2.1).toStr, c.1, c.2.2)

end Drake

namespace Drake

/-- The exception kinds the run protocol distinguishes.  `failed` is
`Builder.Failed`, `drakeError` a generic `drake.Exception` (such as the
missing-output error), `noBuilder` is `drake.NoBuilder`; all three derive
from `drake.Exception`.  `keyError` is Python's builtin `KeyError`, which
does not. -/
inductive Exc where
  | failed
  | drakeError (msg : String)
  | noBuilder (node : String)
  | keyError (key : String)
deriving DecidableEq

/-- Whether the exception is an instance of `drake.Exception`.  The
module shadows the builtin name `Exception` with its own class, so every
`except Exception` clause in the file catches exactly these. -/
def Exc.isDrake : Exc → Bool
  | .keyError _ => false
  | _ => true

/-- A builder target, as far as the staleness decision sees it: a `Node`
(file) that is or is not on disk, or a virtual node. -/
inductive TNode where
  | file (onDisk : Bool)
  | virt
deriving DecidableEq

/-- `Node.missing`: the file does not exist; `BaseNode.missing` (which
`VirtualNode` inherits): always false. -/
def TNode.missing : TNode → Bool
  | .file onDisk => !onDisk
  | .virt => false

/-- The `isinstance(dst, Node)` test used when verifying outputs. -/
def TNode.isFile : TNode → Bool
  | .file _ => true
  | .virt => false

/-- A static source as the staleness logic sees it: its registered name
(`str(node.name())`) and its current content hash. -/
structure Source where
  name : String
  hash : String
deriving DecidableEq

/-- One record of a dynamic-category dependency file after `read()`. -/
structure DynEntry where
  path : String
  sha1 : String
  dtype : String
deriving DecidableEq

/-- The on-disk content of one dynamic dependency category file. -/
structure DynCategory where
  name : String
  entries : List DynEntry
deriving DecidableEq

/-- Oracle inputs for one call of `Builder.run`: the builder's declared
sources and targets, the cachedir listing and dependency-file contents,
the registered deps handlers, the node registry with current hashes, the
persisted builder hash file, and the outcomes of the hooks the engine
calls (building sources, `dependencies()`, `execute()`).  The
exception-delivery behaviour feeding `staticBuildExc`, `dynBuildExc` and
`newDynBuildExc` is that of `sched.coro_wait` / `node.build`; drake/sched.py
is not among the sources, so, as the spec states, a coroutine waiting on
another coroutine receives the exception (if any) of the awaited
coroutine on resume. -/
structure RunEnv where
  sources : List Source
  targets : List TNode
  cachedirListing : List String
  dynDepfiles : List DynCategory
  depsHandlers : List String
  registry : List String
  registryHash : String → String
  primaryStored : List (String × String)
  builderHash : Option String
  builderStored : Option String
  staticBuildExc : Option Exc
  dynBuildExc : Option Exc
  newDynBuildExc : Option Exc
  execRaises : Option Exc
  execReturns : Bool
  targetsAfterExec : List TNode

/-- The file names in a builder's cachedir that are not dependency
categories. -/
def reservedNames : List String := ["drake", "drake.Builder", "stdout"]

/-- The stored records of one category file of the cachedir; a file that
was never written reads as empty (`touch` creates it). -/
def RunEnv.catEntries (env : RunEnv) (f : String) : List DynEntry :=
  match env.dynDepfiles.find? (fun c => c.name = f) with
  | some c => c.entries
  | none => []

/-- The categories loaded into `_depfiles` by the reload loop: every
cachedir entry that is not reserved. -/
def RunEnv.loadedCats (env : RunEnv) : List String :=
  env.cachedirListing.filter (fun f => !(decide (f ∈ reservedNames)))

/-- The reload loop of `Builder.run` (lines 1355-1382): walk the cachedir
listing, skip the reserved names, read each remaining file, look the
deps handler up with a plain dict subscript — a `KeyError` when no
handler is registered for that name, raised before any record of the
file is examined — and register every record not already a source as a
dynamic source. -/
def loadDynLoop (env : RunEnv) : List String → List String → Except Exc (List String)
  | [], dynsrc => .ok dynsrc
  | f :: rest, dynsrc =>
    if f ∈ reservedNames then loadDynLoop env rest dynsrc
    else if f ∈ env.depsHandlers then
      let dynsrc2 := (env.catEntries f).foldl
        (fun acc e =>
          if env.sources.any (fun s => s.name = e.path) ∨ e.path ∈ acc then acc
          else acc ++ [e.path])
        dynsrc
      loadDynLoop env rest dynsrc2
    else .error (.keyError f)

/-- `Builder.run` step 3: reload dynamic dependencies. -/
def Builder.loadDynDeps (env : RunEnv) : Except Exc (List String) :=
  loadDynLoop env env.cachedirListing []

/-- `DepFile.up_to_date`: stored records whose path is no longer in the
registry are dropped; the rest must match the current node hash. -/
def upToDate (registry : List String) (curHash : String → String)
    (stored : List (String × String)) : Bool :=
  stored.all (fun e => !(decide (e.1 ∈ registry)) || decide (curHash e.1 = e.2))

/-- Staleness clause 1 (lines 1430-1438): some target's `missing()` is
true. -/
def Builder.missingTargetStale (env : RunEnv) : Bool :=
  env.targets.any TNode.missing

/-- Staleness clause 2 (lines 1444-1452): a registered source is absent
from the persisted primary dependency file. -/
def Builder.newDepStale (env : RunEnv) : Bool :=
  env.sources.any (fun s => !(env.primaryStored.any (fun p => p.1 = s.name)))

/-- Staleness clause 3 (lines 1457-1471): the builder hash.  When
`hash()` is non-null it is compared against the persisted
`drake.Builder` file (absent file means stale).  When `hash()` is null
this clause contributes nothing: there is no branch for it. -/
def Builder.builderHashStale (env : RunEnv) : Bool :=
  match env.builderHash with
  | some h =>
    match env.builderStored with
    | some stored => decide (h ≠ stored)
    | none => true
  | none => false

/-- Staleness clause 4 (lines 1474-1479): the primary dependency file and
every loaded dynamic category must be `up_to_date`. -/
def Builder.depsStale (env : RunEnv) : Bool :=
  !(upToDate env.registry env.registryHash env.primaryStored) ||
    env.loadedCats.any (fun f =>
      !(upToDate env.registry env.registryHash
          ((env.catEntries f).map (fun e => (e.path, e.sha1)))))

/-- The full staleness disjunction, starting from the flag possibly set
by a failed dynamic-dependency build. -/
def Builder.staleness (env : RunEnv) (execute0 : Bool) : Bool :=
  execute0 || Builder.missingTargetStale env || Builder.newDepStale env ||
    Builder.builderHashStale env || Builder.depsStale env

/-- The side effects of one call of `Builder.run` that the claims
observe.  `executeFlag` is the computed staleness decision (`none` when
the body aborted before deciding), `executeCalled` whether `execute()`
was invoked, and the remaining fields record the persistence step. -/
structure Effects where
  executeFlag : Option Bool := none
  executeCalled : Bool := false
  wrotePrimary : Bool := false
  removedBuilderFile : Bool := false
  wroteBuilderFile : Option String := none
deriving DecidableEq

/-- The tail of the `try` block of `Builder.run` (lines 1430-1541): the
staleness decision, then either the execute path — recompute and build
dynamic dependencies, call `execute()` (a false return raises
`Builder.Failed`), verify every file target exists, persist the
dependency files, removing the `drake.Builder` file when the builder
hash is null — or the up-to-date path. -/
def Builder.runRest (env : RunEnv) (execute0 : Bool) : Except Exc Unit × Effects :=
  let execute := Builder.staleness env execute0
  if execute then
    match env.newDynBuildExc with
    | some e => (.error e, { executeFlag := some true })
    | none =>
      match env.execRaises with
      | some e => (.error e, { executeFlag := some true, executeCalled := true })
      | none =>
        if !env.execReturns then
          (.error .failed, { executeFlag := some true, executeCalled := true })
        else if env.targetsAfterExec.any (fun t => t.isFile && t.missing) then
          (.error (.drakeError "target was not created"),
            { executeFlag := some true, executeCalled := true })
        else
          (.ok (),
            { executeFlag := some true, executeCalled := true,
              wrotePrimary := true,
              removedBuilderFile := env.builderHash.isNone,
              wroteBuilderFile := env.builderHash })
  else (.ok (), { executeFlag := some false })

/-- The `try` body of `Builder.run` (lines 1346-1541): register static
sources, reload dynamic dependencies, build static sources (whose
exceptions propagate), build dynamic sources — only a `drake.Exception`
raised there is caught, and it sets the execute flag — then decide and
act. -/
def Builder.runBody (env : RunEnv) : Except Exc Unit × Effects :=
  match Builder.loadDynDeps env with
  | .error e => (.error e, {})
  | .ok _ =>
    match env.staticBuildExc with
    | some e => (.error e, {})
    | none =>
      match env.dynBuildExc with
      | some e =>
        if e.isDrake then Builder.runRest env true
        else (.error e, {})
      | none => Builder.runRest env false

/-- The memoisation state of a builder: the `__executed` flag, the stored
`__executed_exception`, and whether the `__executed_signal` has been
created and fired. -/
structure BMemo where
  executed : Bool
  exception : Option Exc
  signalCreated : Bool
  signalFired : Bool
deriving DecidableEq

/-- The state a builder is constructed with (lines 1202-1204). -/
def BMemo.fresh : BMemo :=
  { executed := false, exception := none, signalCreated := false,
    signalFired := false }

/-- How one sequential call of `Builder.run` (lines 1319-1548) ends:
normal return, an exception propagating to the caller, or a wait on an
already-created completion signal (taken by a concurrent caller; the
concurrent protocol itself is `Drake.Proto`). -/
inductive Outcome where
  | ok
  | raised (e : Exc)
  | blocked
deriving DecidableEq

/-- `Builder.run`: if already executed, return or re-raise the memoised
result; if another caller holds the signal, wait; otherwise create the
signal and run the body, where the `except Exception` clause stores only
`drake.Exception` instances and the `finally` clause always marks the
builder executed and fires the signal. -/
def Builder.run (st : BMemo) (env : RunEnv) : BMemo × Outcome × Effects :=
  if st.executed then
    match st.exception with
    | some e => (st, .raised e, {})
    | none => (st, .ok, {})
  else if st.signalCreated then (st, .blocked, {})
  else
    let st1 : BMemo := { st with signalCreated := true }
    match Builder.runBody env with
    | (.ok _, fx) => ({ st1 with executed := true, signalFired := true }, .ok, fx)
    | (.error e, fx) =>
      ({ st1 with executed := true,
                  exception := if e.isDrake then some e else st1.exception,
                  signalFired := true }, .raised e, fx)

end Drake

namespace Drake

/-- A registered node as the registry sees it: its absolute name, its
concrete class (`drake_type`) and its identity. -/
structure RNode where
  name : String
  ctype : String
  uid : Nat
deriving DecidableEq

/-- `BaseNode.nodes`: the process-wide map from absolute name to node. -/
abbrev NodeRegistry := List (String × RNode)

/-- Lookup in the registry map (Python dict indexing by name). -/
def NodeRegistry.lookup : NodeRegistry → String → Option RNode
  | [], _ => none
  | p :: rest, name =>
    if p.1 = name then some p.2 else NodeRegistry.lookup rest name

/-- `BaseNode.__init__` (lines 744-754): raise `NodeRedefinition` with
the absolute name when it is already registered, otherwise create the
node and insert it. -/
def baseNodeInit (reg : NodeRegistry) (name ctype : String) (uid : Nat) :
    Except String (NodeRegistry × RNode) :=
  if (NodeRegistry.lookup reg name).isSome then .error name
  else
    let n : RNode := { name := name, ctype := ctype, uid := uid }
    .ok ((name, n) :: reg, n)

/-- `_BaseNodeType.__call__` (lines 714-724): construct; on
`NodeRedefinition` return the registered node after asserting its
concrete class is exactly the requested one (`none` models the assertion
failure). -/
def nodeConstruct (reg : NodeRegistry) (ctype name : String) (uid : Nat) :
    Option (NodeRegistry × RNode) :=
  match baseNodeInit reg name ctype uid with
  | .ok r => some r
  | .error nm =>
    match NodeRegistry.lookup reg nm with
    | some n => if n.ctype = ctype then some (reg, n) else none
    | none => none

/-- The registry after a sequence of node constructions (most recent
first), dropping the failed ones. -/
def constructAll : List (String × String × Nat) → NodeRegistry
  | [] => []
  | op :: rest =>
    let reg := constructAll rest
    match nodeConstruct reg op.1 op.2.1 op.2.2 with
    | some r => r.1
    | none => reg

/-- A node as the build driver sees it: its name and its consumers
list. -/
structure DNode where
  name : String
  consumers : List String
deriving DecidableEq

/-- The `build` command (lines 2042-2044): an empty node list is replaced
by every registered node without consumers. -/
def buildModeSelect (nodes registryNodes : List DNode) : List DNode :=
  if nodes.isEmpty then registryNodes.filter (fun n => n.consumers.isEmpty)
  else nodes

/-- The driver loop of `drake()` (lines 2269-2274): when no node was
named on the command line the defaults list is passed to the mode. -/
def driverSelect (cliNodes defaults : List DNode) : List DNode :=
  if cliNodes.isEmpty then defaults else cliNodes

/-- The nodes the build mode receives for a given command line, defaults
list and registry. -/
def builtNodes (cliNodes defaults registryNodes : List DNode) : List DNode :=
  buildModeSelect (driverSelect cliNodes defaults) registryNodes

end Drake

namespace Drake
namespace Proto

/-- Where a coroutine stands in the `Builder.run` protocol:  before the
prelude; waiting on the completion signal; woken by the signal, about to
re-test `__executed`; inside the `try` body before the `execute()` call;
past it, before the `finally`; returned (or re-raised) to its caller. -/
inductive PC where
  | start
  | waitSig
  | resumed
  | body
  | finishing
  | done
deriving DecidableEq

/-- The shared state of one builder together with the positions of `n`
coroutines that call its `run()`:  the `__executed` flag, whether
`__executed_signal` exists, whether it has fired, and how many times
`execute()` has been invoked. -/
structure SState (n : Nat) where
  executed : Bool
  signalCreated : Bool
  fired : Bool
  execCount : Nat
  pcs : Fin n → PC

/-- All callers at the top of `run()`, nothing executed. -/
def init (n : Nat) : SState n :=
  { executed := false, signalCreated := false, fired := false,
    execCount := 0, pcs := fun _ => PC.start }

/-- One cooperative step of some coroutine.  The prelude of `run()`
(lines 1326-1345) has no suspension point, so testing `__executed`,
testing the signal and creating it are a single step; likewise the
`finally` clause sets `__executed` and fires the signal in one step.
The wait/wake steps are the one-shot broadcast Signal of drake/sched.py,
which is not among the sources; as the spec states, waiters are woken by
`signal()` and a wait on an already-fired signal returns immediately. -/
inductive Step {n : Nat} : SState n → SState n → Prop
  | memo (s : SState n) (i : Fin n) :
      s.pcs i = PC.start → s.executed = true →
      Step s { s with pcs := Function.update s.pcs i PC.done }
  | waitEnter (s : SState n) (i : Fin n) :
      s.pcs i = PC.start → s.executed = false → s.signalCreated = true →
      Step s { s with pcs := Function.update s.pcs i PC.waitSig }
  | acquire (s : SState n) (i : Fin n) :
      s.pcs i = PC.start → s.executed = false → s.signalCreated = false →
      Step s { s with signalCreated := true,
                      pcs := Function.update s.pcs i PC.body }
  | wake (s : SState n) (i : Fin n) :
      s.pcs i = PC.waitSig → s.fired = true →
      Step s { s with pcs := Function.update s.pcs i PC.resumed }
  | resumeMemo (s : SState n) (i : Fin n) :
      s.pcs i = PC.resumed → s.executed = true →
      Step s { s with pcs := Function.update s.pcs i PC.done }
  | resumeRace (s : SState n) (i : Fin n) :
      s.pcs i = PC.resumed → s.executed = false →
      Step s { s with pcs := Function.update s.pcs i PC.body }
  | execStep (s : SState n) (i : Fin n) :
      s.pcs i = PC.body →
      Step s { s with execCount := s.execCount + 1,
                      pcs := Function.update s.pcs i PC.finishing }
  | skipExec (s : SState n) (i : Fin n) :
      s.pcs i = PC.body →
      Step s { s with pcs := Function.update s.pcs i PC.finishing }
  | finish (s : SState n) (i : Fin n) :
      s.pcs i = PC.finishing →
      Step s { s with executed := true, fired := true,
                      pcs := Function.update s.pcs i PC.done }

/-- The states one driver run can reach. -/
inductive Reachable {n : Nat} : SState n → Prop
  | base : Reachable (init n)
  | step {s s2 : SState n} : Reachable s → Step s s2 → Reachable s2

/-- Whether a coroutine is inside the `try` body of `run()`. -/
def bodyish : PC → Bool
  | PC.body => true
  | PC.finishing => true
  | _ => false

/-- The inductive invariant of the protocol. -/
structure Inv {n : Nat} (s : SState n) : Prop where
  fired_exec : s.fired = true → s.executed = true
  resumed_fired : ∀ i, s.pcs i = PC.resumed → s.fired = true
  nosig : s.signalCreated = false →
    s.executed = false ∧ s.execCount = 0 ∧ ∀ i, s.pcs i = PC.start
  uniq : ∀ i j, bodyish (s.pcs i) = true → bodyish (s.pcs j) = true → i = j
  exec_noBody : s.executed = true → ∀ i, bodyish (s.pcs i) = false
  body_zero : ∀ i, s.pcs i = PC.body → s.execCount = 0
  cnt : s.execCount ≤ 1

end Proto
end Drake


namespace Drake

/-- A quiescent run environment used by concrete counterexamples and
witnesses: no sources, one file target present on disk, an empty
cachedir, nothing persisted, every hook succeeding. -/
def envClean : RunEnv :=
  { sources := [], targets := [TNode.file true], cachedirListing := [],
    dynDepfiles := [], depsHandlers := [], registry := [],
    registryHash := fun _ => "", primaryStored := [], builderHash := none,
    builderStored := none, staticBuildExc := none, dynBuildExc := none,
    newDynBuildExc := none, execRaises := none, execReturns := true,
    targetsAfterExec := [TNode.file true] }

/-- A run environment whose cachedir holds a category file `headers`
with no registered deps handler, every path it records being a
registered, up-to-date node. -/
def envHeaders : RunEnv :=
  { envClean with
      cachedirListing := ["drake", "headers"],
      dynDepfiles := [{ name := "headers",
                        entries := [{ path := "src.c", sha1 := "h1",
                                      dtype := "drake.Node" }] }],
      registry := ["src.c"],
      registryHash := fun _ => "h1" }

end Drake

/-! ## Theorems -/

namespace Drake

theorem pySplit_ne_nil (sep : Char) (l : PStr) : pySplit sep l ≠ [] := by
  cases l with
  | nil => simp [pySplit]
  | cons c rest =>
    simp only [pySplit]
    split <;> simp

theorem pyJoin_cons (sep : Char) (x : PStr) (xs : List PStr) :
    pyJoin sep (x :: xs) = x ++ (if xs = [] then [] else sep :: pyJoin sep xs) := by
  cases xs <;> simp [pyJoin]

/-- Splitting distributes over concatenation at a separator. -/
theorem pySplit_append (sep : Char) (a b : PStr) :
    pySplit sep (a ++ sep :: b) = pySplit sep a ++ pySplit sep b := by
  induction a with
  | nil => simp [pySplit]
  | cons c rest ih =>
    simp only [List.cons_append, pySplit]
    by_cases hc : c = sep
    · simp [hc, ih]
    · simp only [if_neg hc]
      have hne := pySplit_ne_nil sep rest
      obtain ⟨h, t, hht⟩ := List.exists_cons_of_ne_nil hne
      simp [ih, hht, List.headI]

/-- Splitting a string that does not contain the separator. -/
theorem pySplit_of_not_mem {sep : Char} {a : PStr} (h : sep ∉ a) :
    pySplit sep a = [a] := by
  induction a with
  | nil => simp [pySplit]
  | cons c rest ih =>
    simp only [List.mem_cons, not_or] at h
    simp [pySplit, ih h.2, List.headI, Ne.symm h.1, h.1]

/-- `join` is a left inverse of `split`. -/
theorem pyJoin_pySplit (sep : Char) (l : PStr) :
    pyJoin sep (pySplit sep l) = l := by
  induction l with
  | nil => simp [pySplit, pyJoin]
  | cons c rest ih =>
    have hne := pySplit_ne_nil sep rest
    obtain ⟨h, t, hht⟩ := List.exists_cons_of_ne_nil hne
    simp only [pySplit]
    by_cases hc : c = sep
    · subst hc
      rw [if_pos rfl, pyJoin_cons, if_neg hne, ih]
      rfl
    · simp only [if_neg hc, hht, List.headI, List.tail]
      rw [hht] at ih
      cases t with
      | nil =>
        simp only [pyJoin] at ih ⊢
        simp [ih]
      | cons t0 ts =>
        rw [pyJoin_cons] at ih ⊢
        simp only [List.cons_ne_nil, if_neg, ite_false] at ih ⊢
        rw [← ih]
        simp


theorem updateContent_cons (e : DepEntry) (rest : List DepEntry) :
    DepFile.updateContent (e :: rest)
      = (e.hash ++ ' ' :: e.name ++ ' ' :: e.dtype)
          ++ '\n' :: DepFile.updateContent rest := by
  simp [DepFile.updateContent]

theorem updateContent_split (entries : List DepEntry)
    (h : ∀ e ∈ entries, '\n' ∉ e.hash ∧ '\n' ∉ e.name ∧ '\n' ∉ e.dtype) :
    pySplit '\n' (DepFile.updateContent entries)
      = entries.map (fun e => e.hash ++ ' ' :: e.name ++ ' ' :: e.dtype) ++ [[]] := by
  induction entries with
  | nil => simp [DepFile.updateContent, pySplit]
  | cons e rest ih =>
    obtain ⟨h1, h2, h3⟩ := h e (by simp)
    have hline : '\n' ∉ e.hash ++ ' ' :: e.name ++ ' ' :: e.dtype := by
      simp [List.mem_append, List.mem_cons, h1, h2, h3]
    rw [updateContent_cons, pySplit_append, pySplit_of_not_mem hline,
      ih (fun e2 he2 => h e2 (by simp [he2]))]
    simp

theorem parseLine_record (e : DepEntry) (hh : ' ' ∉ e.hash) (ht : ' ' ∉ e.dtype) :
    DepFile.parseLine (e.hash ++ ' ' :: e.name ++ ' ' :: e.dtype)
      = (e.hash, e.name, e.dtype) := by
  have hchunks : pySplit ' ' (e.hash ++ ' ' :: e.name ++ ' ' :: e.dtype)
      = e.hash :: (pySplit ' ' e.name ++ [e.dtype]) := by
    rw [pySplit_append, pySplit_append, pySplit_of_not_mem hh,
      pySplit_of_not_mem ht]
    simp
  simp only [DepFile.parseLine, hchunks, List.headI, List.drop_one,
    List.tail_cons]
  rw [List.dropLast_concat, pyJoin_pySplit, List.getLastD_cons,
    List.getLastD_concat]

/-- C6: writing a DepFile with `update()` and reading it back with
`read()` yields the same association from node name to (hash, type-tag)
— here with no entry dropped at all, since `read()` itself consults no
registry — provided hashes and type tags contain no space or newline and
names are newline-free and in normal path form.  In particular names
containing spaces round-trip: the parse takes the first space-separated
chunk as the hash, the last as the type tag, and rejoins everything
between as the name. -/
theorem depfile_roundtrip (entries : List DepEntry)
    (hhash : ∀ e ∈ entries, ' ' ∉ e.hash ∧ '\n' ∉ e.hash)
    (hname : ∀ e ∈ entries, '\n' ∉ e.name ∧ (Path.init e.name).toStr = e.name)
    (hdtype : ∀ e ∈ entries, ' ' ∉ e.dtype ∧ '\n' ∉ e.dtype) :
    DepFile.readContent (DepFile.updateContent entries)
      = entries.map (fun e => (e.name, e.hash, e.dtype)) := by
  unfold DepFile.readContent
  rw [updateContent_split entries
    (fun e he => ⟨(hhash e he).2, (hname e he).1, (hdtype e he).2⟩)]
  rw [List.dropLast_concat, List.map_map]
  refine List.map_congr_left (fun e he => ?_)
  simp only [Function.comp]
  rw [parseLine_record e (hhash e he).1 (hdtype e he).1]
  simp [(hname e he).2]

/-- C6 witness: a concrete DepFile with a space inside a node name
round-trips exactly. -/
theorem depfile_roundtrip_witness :
    DepFile.readContent (DepFile.updateContent
        [{ hash := ['d', 'e', 'a', 'd'], name := ['d', 'i', 'r', '/', 'a', ' ', 'b', '.', 'c'],
           dtype := ['d', 'r', 'a', 'k', 'e', '.', 'N', 'o', 'd', 'e'] }])
      = [(['d', 'i', 'r', '/', 'a', ' ', 'b', '.', 'c'], ['d', 'e', 'a', 'd'],
          ['d', 'r', 'a', 'k', 'e', '.', 'N', 'o', 'd', 'e'])] :=
  depfile_roundtrip _ (by decide) (by decide) (by decide)

/-- C10: path equality ignores the virtual flag — for every component
list the virtual path (as parsed from a leading `//`) compares equal to
the non-virtual path with the same components, while their string forms
differ; hence any hash computed from the string form (as `__hash__` is)
can distinguish two equal paths. -/
theorem path_eq_ignores_virtual :
    (∀ (cs : List PStr) (a : Bool),
        Path.beq { comps := cs, absolute := a, virtual := true }
            { comps := cs, absolute := a, virtual := false } = true
        ∧ Path.toStr { comps := cs, absolute := a, virtual := true }
            ≠ Path.toStr { comps := cs, absolute := a, virtual := false })
    ∧ Path.init ('/' :: '/' :: ['f', 'o', 'o', '/', 'b', 'a', 'r'])
        = { comps := [['f', 'o', 'o'], ['b', 'a', 'r']], absolute := false, virtual := true }
    ∧ Path.init ['f', 'o', 'o', '/', 'b', 'a', 'r']
        = { comps := [['f', 'o', 'o'], ['b', 'a', 'r']], absolute := false, virtual := false }
    ∧ (∀ (α : Type) (h : PStr → α), Function.Injective h →
        h (Path.toStr { comps := [['f', 'o', 'o'], ['b', 'a', 'r']], absolute := false, virtual := true })
          ≠ h (Path.toStr { comps := [['f', 'o', 'o'], ['b', 'a', 'r']], absolute := false, virtual := false })) := by
  refine ⟨fun cs a => ⟨by simp [Path.beq], ?_⟩, by decide, by decide,
    fun α h hinj => hinj.ne (by decide)⟩
  intro hcontra
  have hlen := congrArg List.length hcontra
  simp [Path.toStr] at hlen
  omega

/-- C10 witness: the general part applied to one component list, and an
injective hash (the identity on the string form) telling the two string
forms apart. -/
theorem path_eq_ignores_virtual_witness :
    Path.beq { comps := [['a']], absolute := false, virtual := true }
        { comps := [['a']], absolute := false, virtual := false } = true
    ∧ id (Path.toStr { comps := [['f', 'o', 'o'], ['b', 'a', 'r']], absolute := false, virtual := true })
        ≠ id (Path.toStr { comps := [['f', 'o', 'o'], ['b', 'a', 'r']], absolute := false, virtual := false }) :=
  ⟨(path_eq_ignores_virtual.1 [['a']] false).1,
    path_eq_ignores_virtual.2.2.2 PStr id (fun _ _ hab => hab)⟩

end Drake

namespace Drake

theorem loadDynLoop_ok (env : RunEnv) (listing : List String)
    (h : ∀ f ∈ listing, f ∉ reservedNames → f ∈ env.depsHandlers)
    (acc : List String) :
    ∃ d, loadDynLoop env listing acc = .ok d := by
  induction listing generalizing acc with
  | nil => exact ⟨acc, rfl⟩
  | cons f rest ih =>
    simp only [loadDynLoop]
    by_cases hr : f ∈ reservedNames
    · rw [if_pos hr]
      exact ih (fun g hg hgr => h g (by simp [hg]) hgr) acc
    · rw [if_neg hr, if_pos (h f (by simp) hr)]
      exact ih (fun g hg hgr => h g (by simp [hg]) hgr) _

theorem loadDynLoop_keyError (env : RunEnv) (listing : List String)
    (hbad : ∃ f ∈ listing, f ∉ reservedNames ∧ f ∉ env.depsHandlers)
    (acc : List String) :
    ∃ k, loadDynLoop env listing acc = .error (.keyError k)
      ∧ k ∈ listing ∧ k ∉ reservedNames ∧ k ∉ env.depsHandlers := by
  induction listing generalizing acc with
  | nil => simp at hbad
  | cons f rest ih =>
    obtain ⟨g, hg, hgr, hgh⟩ := hbad
    simp only [loadDynLoop]
    by_cases hr : f ∈ reservedNames
    · rw [if_pos hr]
      have hgrest : g ∈ rest := by
        rcases List.mem_cons.mp hg with hgf | hgrest
        · exact absurd (hgf ▸ hr) hgr
        · exact hgrest
      obtain ⟨k, hk, hkl, hkr, hkh⟩ := ih ⟨g, hgrest, hgr, hgh⟩ acc
      exact ⟨k, hk, by simp [hkl], hkr, hkh⟩
    · rw [if_neg hr]
      by_cases hh : f ∈ env.depsHandlers
      · rw [if_pos hh]
        have hgrest : g ∈ rest := by
          rcases List.mem_cons.mp hg with hgf | hgrest
          · exact absurd (hgf ▸ hh) hgh
          · exact hgrest
        obtain ⟨k, hk, hkl, hkr, hkh⟩ := ih ⟨g, hgrest, hgr, hgh⟩ _
        exact ⟨k, hk, by simp [hkl], hkr, hkh⟩
      · rw [if_neg hh]
        exact ⟨f, rfl, by simp, hr, hh⟩

theorem runBody_clean (env : RunEnv)
    (hload : ∀ f ∈ env.cachedirListing, f ∉ reservedNames → f ∈ env.depsHandlers)
    (hstatic : env.staticBuildExc = none)
    (hdyn : env.dynBuildExc = none) :
    Builder.runBody env = Builder.runRest env false := by
  obtain ⟨d, hd⟩ := loadDynLoop_ok env env.cachedirListing hload []
  simp [Builder.runBody, Builder.loadDynDeps, hd, hstatic, hdyn]

theorem runRest_executeFlag (env : RunEnv) (b : Bool) :
    (Builder.runRest env b).2.executeFlag = some (Builder.staleness env b) := by
  unfold Builder.runRest
  by_cases hex : Builder.staleness env b = true
  · rw [hex]
    simp only [if_pos rfl]
    cases env.newDynBuildExc <;> cases env.execRaises <;>
      cases henv : env.execReturns <;>
      simp [henv] <;> split <;> simp
  · rw [Bool.not_eq_true] at hex
    simp [hex]

theorem runRest_persist (env : RunEnv) (b : Bool)
    (hw : (Builder.runRest env b).2.wrotePrimary = true) :
    (Builder.runRest env b).2.removedBuilderFile = env.builderHash.isNone := by
  unfold Builder.runRest at hw ⊢
  by_cases hex : Builder.staleness env b = true
  · rcases hnd : env.newDynBuildExc with _ | e1
    · rcases her : env.execRaises with _ | e2
      · by_cases hret : env.execReturns = true
        · by_cases htg : env.targetsAfterExec.any (fun t => t.isFile && t.missing) = true
          · simp [hex, hnd, her, hret, htg] at hw
          · simp [hex, hnd, her, hret, htg]
        · rw [Bool.not_eq_true] at hret
          simp [hex, hnd, her, hret] at hw
      · simp [hex, hnd, her] at hw
    · simp [hex, hnd] at hw
  · rw [Bool.not_eq_true] at hex
    simp [hex] at hw

theorem runBody_fx (env : RunEnv) :
    (Builder.runBody env).2 = {} ∨ ∃ b, (Builder.runBody env).2 = (Builder.runRest env b).2 := by
  unfold Builder.runBody
  rcases hl : Builder.loadDynDeps env with e | d
  · left; rfl
  · rcases hs : env.staticBuildExc with _ | e
    · rcases hdy : env.dynBuildExc with _ | e
      · right; exact ⟨false, rfl⟩
      · by_cases hdr : e.isDrake = true
        · right; exact ⟨true, by simp [hdr]⟩
        · left; simp [hdr]
    · left; rfl

theorem run_fx (st : BMemo) (env : RunEnv) :
    (Builder.run st env).2.2 = {} ∨ ∃ b, (Builder.run st env).2.2 = (Builder.runRest env b).2 := by
  unfold Builder.run
  by_cases he : st.executed = true
  · rw [he]
    cases st.exception <;> simp
  · rw [Bool.not_eq_true] at he
    rw [he]
    by_cases hc : st.signalCreated = true
    · simp [hc]
    · rw [Bool.not_eq_true] at hc
      simp only [hc, Bool.false_eq_true, if_false, if_true]
      rcases hb : Builder.runBody env with ⟨res, fx⟩
      have := runBody_fx env
      rw [hb] at this
      cases res <;> simpa using this

end Drake

namespace Drake

/-- C1 counterexample: with a null builder hash and a stale persisted
`drake.Builder` file, and nothing else stale, the builder is NOT
re-executed and the file is NOT removed — the run just reports
everything up to date. -/
theorem builder_hash_null_stale_file_kept :
    ({ envClean with builderStored := some "stale" } : RunEnv).builderHash = none
    ∧ (Builder.run BMemo.fresh { envClean with builderStored := some "stale" }).2.2.executeCalled
        = false
    ∧ (Builder.run BMemo.fresh { envClean with builderStored := some "stale" }).2.2.removedBuilderFile
        = false
    ∧ (Builder.run BMemo.fresh { envClean with builderStored := some "stale" }).2.1
        = Outcome.ok :=
  ⟨rfl, rfl, rfl, rfl⟩

/-- C1 (amended): when the builder's `hash()` is null the staleness
decision ignores the persisted `drake.Builder` file entirely (there is
no branch for it, so a stale file does not force re-execution); the file
is removed only when the builder executes and persists for some other
reason. -/
theorem builder_hash_null_behaviour (env : RunEnv)
    (hnull : env.builderHash = none) :
    Builder.builderHashStale env = false
    ∧ (∀ st : BMemo, (Builder.run st env).2.2.wrotePrimary = true →
        (Builder.run st env).2.2.removedBuilderFile = true) := by
  constructor
  · simp [Builder.builderHashStale, hnull]
  · intro st hw
    rcases run_fx st env with hfx | ⟨b, hfx⟩
    · rw [hfx] at hw
      simp at hw
    · rw [hfx] at hw ⊢
      rw [runRest_persist env b hw, hnull]
      rfl

/-- C1 witness: the amended behaviour at a concrete state — the builder
executes because its target is missing, and the persist step removes the
stale `drake.Builder` file. -/
theorem builder_hash_null_behaviour_witness :
    Builder.builderHashStale
        { envClean with targets := [TNode.file false], builderStored := some "stale" } = false
    ∧ (Builder.run BMemo.fresh
        { envClean with targets := [TNode.file false], builderStored := some "stale" }).2.2.wrotePrimary
        = true
    ∧ (Builder.run BMemo.fresh
        { envClean with targets := [TNode.file false], builderStored := some "stale" }).2.2.removedBuilderFile
        = true :=
  ⟨(builder_hash_null_behaviour _ rfl).1, rfl,
    (builder_hash_null_behaviour _ rfl).2 BMemo.fresh rfl⟩

/-- C3: when the staleness decision says execute and `execute()` returns
false, `run()` stores `Builder.Failed` as the builder's exception, marks
it executed, fires its completion signal and raises; and a subsequent
call on the resulting state re-raises the stored exception with no
further effects. -/
theorem execute_false_records_failed (env : RunEnv)
    (hload : ∀ f ∈ env.cachedirListing, f ∉ reservedNames → f ∈ env.depsHandlers)
    (hstatic : env.staticBuildExc = none)
    (hdyn : env.dynBuildExc = none)
    (hstale : Builder.staleness env false = true)
    (hnewdyn : env.newDynBuildExc = none)
    (hraise : env.execRaises = none)
    (hfalse : env.execReturns = false) :
    Builder.run BMemo.fresh env
      = ({ executed := true, exception := some Exc.failed, signalCreated := true,
           signalFired := true },
         Outcome.raised Exc.failed,
         { executeFlag := some true, executeCalled := true })
    ∧ Builder.run
        { executed := true, exception := some Exc.failed, signalCreated := true,
          signalFired := true } env
      = ({ executed := true, exception := some Exc.failed, signalCreated := true,
           signalFired := true },
         Outcome.raised Exc.failed, {}) := by
  have hbody : Builder.runBody env = Builder.runRest env false :=
    runBody_clean env hload hstatic hdyn
  have hrest : Builder.runRest env false
      = (Except.error Exc.failed,
         { executeFlag := some true, executeCalled := true }) := by
    unfold Builder.runRest
    simp [hstale, hnewdyn, hraise, hfalse]
  constructor
  · simp [Builder.run, BMemo.fresh, hbody, hrest, Exc.isDrake]
  · simp [Builder.run]

/-- C3 witness: a concrete run whose target is missing and whose
`execute()` returns false. -/
theorem execute_false_records_failed_witness :
    Builder.run BMemo.fresh
        { envClean with targets := [TNode.file false], execReturns := false }
      = ({ executed := true, exception := some Exc.failed, signalCreated := true,
           signalFired := true },
         Outcome.raised Exc.failed,
         { executeFlag := some true, executeCalled := true }) :=
  (execute_false_records_failed
    { envClean with targets := [TNode.file false], execReturns := false }
    (by intro f hf; simp [envClean] at hf) rfl rfl rfl rfl rfl rfl).1

/-- C4 counterexample: a `KeyError` (not a `drake.Exception`) raised
while building the dynamic sources is NOT caught — the run aborts before
the staleness decision instead of merely setting the execute flag. -/
theorem dynamic_exc_keyerror_aborts :
    ({ envClean with dynBuildExc := some (Exc.keyError "boom") } : RunEnv).dynBuildExc
        = some (Exc.keyError "boom")
    ∧ (Builder.run BMemo.fresh
        { envClean with dynBuildExc := some (Exc.keyError "boom") }).2.1
        = Outcome.raised (Exc.keyError "boom")
    ∧ (Builder.run BMemo.fresh
        { envClean with dynBuildExc := some (Exc.keyError "boom") }).2.2.executeFlag
        = none :=
  ⟨rfl, rfl, rfl⟩

/-- C4 (amended): of the exceptions raised while building dynamic
sources, exactly the `drake.Exception` instances are caught and merely
set the execute flag to true; any other exception aborts the builder's
run before the staleness decision. -/
theorem dynamic_exc_drake_only (env : RunEnv) (e : Exc)
    (hload : ∀ f ∈ env.cachedirListing, f ∉ reservedNames → f ∈ env.depsHandlers)
    (hstatic : env.staticBuildExc = none)
    (hdyn : env.dynBuildExc = some e) :
    (e.isDrake = true →
      (Builder.run BMemo.fresh env).2.2.executeFlag = some true)
    ∧ (e.isDrake = false →
      Builder.run BMemo.fresh env
        = ({ executed := true, exception := none, signalCreated := true,
             signalFired := true },
           Outcome.raised e, {})) := by
  obtain ⟨d, hd⟩ := loadDynLoop_ok env env.cachedirListing hload []
  constructor
  · intro hdr
    have hbody : Builder.runBody env = Builder.runRest env true := by
      simp [Builder.runBody, Builder.loadDynDeps, hd, hstatic, hdyn, hdr]
    have hflag := runRest_executeFlag env true
    have hstale : Builder.staleness env true = true := by
      simp [Builder.staleness]
    rw [hstale] at hflag
    rcases hout : Builder.runRest env true with ⟨res, fx⟩
    rw [hout] at hbody hflag
    cases res <;> simp [Builder.run, BMemo.fresh, hbody] <;> exact hflag
  · intro hdr
    have hbody : Builder.runBody env = (Except.error e, {}) := by
      simp [Builder.runBody, Builder.loadDynDeps, hd, hstatic, hdyn, hdr]
    simp [Builder.run, BMemo.fresh, hbody, hdr]

/-- C4 witness: the amended behaviour at concrete inputs — a
`Builder.Failed` from a dynamic source sets the execute flag, a
`KeyError` aborts the run. -/
theorem dynamic_exc_drake_only_witness :
    (Builder.run BMemo.fresh
        { envClean with dynBuildExc := some Exc.failed }).2.2.executeFlag = some true
    ∧ Builder.run BMemo.fresh
        { envClean with dynBuildExc := some (Exc.keyError "k") }
      = ({ executed := true, exception := none, signalCreated := true,
           signalFired := true },
         Outcome.raised (Exc.keyError "k"), {}) :=
  ⟨(dynamic_exc_drake_only { envClean with dynBuildExc := some Exc.failed }
      Exc.failed (by intro f hf; simp [envClean] at hf) rfl rfl).1 rfl,
   (dynamic_exc_drake_only { envClean with dynBuildExc := some (Exc.keyError "k") }
      (Exc.keyError "k") (by intro f hf; simp [envClean] at hf) rfl rfl).2 rfl⟩

/-- C5: a builder whose run reaches the staleness decision is re-executed
whenever one of its file targets is missing from disk; `missing()` of a
virtual node is always false, and a builder all of whose targets are
virtual can never be forced to execute by the missing-target clause. -/
theorem missing_target_forces_execute (env : RunEnv)
    (hload : ∀ f ∈ env.cachedirListing, f ∉ reservedNames → f ∈ env.depsHandlers)
    (hstatic : env.staticBuildExc = none)
    (hdyn : env.dynBuildExc = none)
    (hmiss : ∃ t ∈ env.targets, TNode.isFile t = true ∧ TNode.missing t = true) :
    (Builder.run BMemo.fresh env).2.2.executeFlag = some true
    ∧ TNode.missing TNode.virt = false
    ∧ (∀ env2 : RunEnv, (∀ t ∈ env2.targets, t = TNode.virt) →
        Builder.missingTargetStale env2 = false) := by
  refine ⟨?_, rfl, ?_⟩
  · have hbody : Builder.runBody env = Builder.runRest env false :=
      runBody_clean env hload hstatic hdyn
    obtain ⟨t, ht, _, hm⟩ := hmiss
    have hstale : Builder.staleness env false = true := by
      have : Builder.missingTargetStale env = true :=
        List.any_eq_true.mpr ⟨t, ht, hm⟩
      simp [Builder.staleness, this]
    have hflag := runRest_executeFlag env false
    rw [hstale] at hflag
    rcases hout : Builder.runRest env false with ⟨res, fx⟩
    rw [hout] at hbody hflag
    cases res <;> simp [Builder.run, BMemo.fresh, hbody] <;> exact hflag
  · intro env2 hv
    simp only [Builder.missingTargetStale, List.any_eq_false]
    intro t ht
    rw [hv t ht]
    simp [TNode.missing]

/-- C5 witness: a missing file target forces the execute decision. -/
theorem missing_target_forces_execute_witness :
    (Builder.run BMemo.fresh { envClean with targets := [TNode.file false] }).2.2.executeFlag
      = some true :=
  (missing_target_forces_execute { envClean with targets := [TNode.file false] }
    (by intro f hf; simp [envClean] at hf) rfl rfl
    ⟨TNode.file false, by simp, rfl, rfl⟩).1

/-- C9 counterexample: a cachedir entry `headers` with no registered deps
handler makes `run()` raise `KeyError` even though every path recorded in
that file is in the node registry — but, the claim's storage clause
notwithstanding, the `KeyError` is NOT stored as the builder's execution
exception (`except Exception` only catches `drake.Exception`); the
builder is still marked executed with no stored exception. -/
theorem unknown_category_keyerror_not_stored :
    (∀ e ∈ (envHeaders.catEntries "headers"), e.path ∈ envHeaders.registry)
    ∧ (Builder.run BMemo.fresh envHeaders).2.1
        = Outcome.raised (Exc.keyError "headers")
    ∧ (Builder.run BMemo.fresh envHeaders).1.exception = none
    ∧ (Builder.run BMemo.fresh envHeaders).1.executed = true :=
  ⟨by decide, rfl, rfl, rfl⟩

/-- C9 (amended): a cachedir file that is neither reserved nor a
registered deps-handler category makes `run()` raise a `KeyError` while
loading dynamic DepFiles — before any recorded path is even examined, so
also when all of them are registered nodes; the builder is marked
executed and its signal fires, but the `KeyError` is not stored as the
execution exception. -/
theorem unknown_category_raises_keyerror (env : RunEnv)
    (hbad : ∃ f ∈ env.cachedirListing, f ∉ reservedNames ∧ f ∉ env.depsHandlers) :
    ∃ k, k ∉ env.depsHandlers
      ∧ Builder.run BMemo.fresh env
        = ({ executed := true, exception := none, signalCreated := true,
             signalFired := true },
           Outcome.raised (Exc.keyError k), {}) := by
  obtain ⟨k, hk, _, _, hkh⟩ :=
    loadDynLoop_keyError env env.cachedirListing hbad []
  refine ⟨k, hkh, ?_⟩
  have hbody : Builder.runBody env = (Except.error (Exc.keyError k), {}) := by
    simp [Builder.runBody, Builder.loadDynDeps, hk]
  simp [Builder.run, BMemo.fresh, hbody, Exc.isDrake]

/-- C9 witness: the amended behaviour at the concrete input of the
counterexample. -/
theorem unknown_category_raises_keyerror_witness :
    ∃ k, k ∉ envHeaders.depsHandlers
      ∧ Builder.run BMemo.fresh envHeaders
        = ({ executed := true, exception := none, signalCreated := true,
             signalFired := true },
           Outcome.raised (Exc.keyError k), {}) :=
  unknown_category_raises_keyerror envHeaders
    ⟨"headers", by simp [envHeaders, envClean], by simp [reservedNames],
      by simp [envHeaders, envClean]⟩

end Drake

namespace Drake

theorem lookup_none_iff (reg : NodeRegistry) (name : String) :
    NodeRegistry.lookup reg name = none ↔ name ∉ reg.map Prod.fst := by
  induction reg with
  | nil => simp [NodeRegistry.lookup]
  | cons p rest ih =>
    simp only [NodeRegistry.lookup, List.map_cons, List.mem_cons]
    by_cases hp : p.1 = name
    · simp [hp]
    · simp only [hp, if_false, ite_false, ih]
      constructor
      · intro h hmem
        rcases hmem with hmem | hmem
        · exact hp hmem.symm
        · exact h hmem
      · intro h hmem
        exact h (Or.inr hmem)

/-- C7: the node registry keeps at most one node per absolute name —
after any sequence of constructions the registered names are pairwise
distinct — and constructing a node whose name is already registered
returns the existing instance, unchanged registry, when its concrete
type matches the requested one, and fails otherwise. -/
theorem node_registry_unique :
    (∀ ops : List (String × String × Nat),
        ((constructAll ops).map Prod.fst).Nodup)
    ∧ (∀ (reg : NodeRegistry) (ctype name : String) (uid : Nat) (n : RNode),
        NodeRegistry.lookup reg name = some n →
        nodeConstruct reg ctype name uid
          = if n.ctype = ctype then some (reg, n) else none) := by
  have hsecond : ∀ (reg : NodeRegistry) (ctype name : String) (uid : Nat) (n : RNode),
      NodeRegistry.lookup reg name = some n →
      nodeConstruct reg ctype name uid
        = if n.ctype = ctype then some (reg, n) else none := by
    intro reg ctype name uid n hl
    unfold nodeConstruct baseNodeInit
    simp [hl]
  refine ⟨?_, hsecond⟩
  intro ops
  induction ops with
  | nil => simp [constructAll]
  | cons op rest ih =>
    simp only [constructAll]
    rcases hl : NodeRegistry.lookup (constructAll rest) op.2.1 with _ | n
    · have hfresh : nodeConstruct (constructAll rest) op.1 op.2.1 op.2.2
          = some ((op.2.1, { name := op.2.1, ctype := op.1, uid := op.2.2 })
                    :: constructAll rest,
                  { name := op.2.1, ctype := op.1, uid := op.2.2 }) := by
        unfold nodeConstruct baseNodeInit
        simp [hl]
      rw [hfresh]
      simp only [List.map_cons, List.nodup_cons]
      exact ⟨(lookup_none_iff _ _).mp hl, ih⟩
    · rw [hsecond _ op.1 op.2.1 op.2.2 n hl]
      by_cases hty : n.ctype = op.1
      · simpa [hty] using ih
      · simpa [hty] using ih

/-- C7 witness: a second construction of `n` with the same concrete type
returns the existing instance and leaves the registry unchanged; with a
different type it fails; and the registered names stay distinct. -/
theorem node_registry_unique_witness :
    nodeConstruct [("n", { name := "n", ctype := "T", uid := 0 })] "T" "n" 1
      = some ([("n", { name := "n", ctype := "T", uid := 0 })],
              { name := "n", ctype := "T", uid := 0 })
    ∧ nodeConstruct [("n", { name := "n", ctype := "T", uid := 0 })] "U" "n" 1
      = none
    ∧ ((constructAll [("T", "n", 1), ("T", "n", 0)]).map Prod.fst).Nodup := by
  refine ⟨?_, ?_, node_registry_unique.1 _⟩
  · rw [node_registry_unique.2 _ "T" "n" 1
      { name := "n", ctype := "T", uid := 0 } (by decide)]
    decide
  · rw [node_registry_unique.2 _ "U" "n" 1
      { name := "n", ctype := "T", uid := 0 } (by decide)]
    decide

/-- C8 counterexample: with an empty requested-node list and a non-empty
defaults list, the build mode receives exactly the defaults — the
consumer-less root is not built, contradicting "roots plus defaults". -/
theorem empty_cli_drops_roots :
    builtNodes []
        [{ name := "dflt", consumers := ["b"] }]
        [{ name := "root", consumers := [] }, { name := "dflt", consumers := ["b"] }]
      = [{ name := "dflt", consumers := ["b"] }]
    ∧ ({ name := "root", consumers := [] } : DNode).consumers.isEmpty = true
    ∧ ({ name := "root", consumers := [] } : DNode)
        ∉ builtNodes []
            [{ name := "dflt", consumers := ["b"] }]
            [{ name := "root", consumers := [] }, { name := "dflt", consumers := ["b"] }] :=
  ⟨rfl, rfl, by decide⟩

/-- C8 (amended): with an empty requested-node list the set of nodes
built is the defaults list when it is non-empty, and otherwise all
registered nodes with no consumers; never the union of the two. -/
theorem empty_cli_defaults_or_roots (defaults registryNodes : List DNode) :
    builtNodes [] defaults registryNodes
      = if defaults.isEmpty
        then registryNodes.filter (fun n => n.consumers.isEmpty)
        else defaults := by
  cases defaults <;>
    simp [builtNodes, driverSelect, buildModeSelect]

end Drake


namespace Drake
namespace Proto

theorem update_eval {n : Nat} (pcs : Fin n → PC) (i j : Fin n) (v : PC) :
    Function.update pcs i v j = if j = i then v else pcs j := by
  by_cases hj : j = i
  · subst hj; simp
  · simp [Function.update_noteq hj, hj]

theorem inv_init (n : Nat) : Inv (init n) := by
  refine ⟨?_, ?_, ?_, ?_, ?_, ?_, ?_⟩ <;> simp [init, bodyish]

theorem inv_step {n : Nat} {s s2 : SState n} (hs : Inv s) (hstep : Step s s2) :
    Inv s2 := by
  cases hstep with
  | memo i hpc hex =>
    refine ⟨hs.fired_exec, ?_, ?_, ?_, ?_, ?_, hs.cnt⟩
    · intro j hj
      simp only [update_eval] at hj
      by_cases hji : j = i
      · simp [hji] at hj
      · rw [if_neg hji] at hj
        exact hs.resumed_fired j hj
    · intro hc
      replace hc : s.signalCreated = false := hc
      have h1 := (hs.nosig hc).1
      rw [h1] at hex
      simp at hex
    · intro j k hj hk
      simp only [update_eval] at hj hk
      by_cases hji : j = i
      · simp [hji, bodyish] at hj
      · by_cases hki : k = i
        · simp [hki, bodyish] at hk
        · rw [if_neg hji] at hj
          rw [if_neg hki] at hk
          exact hs.uniq j k hj hk
    · intro hex2 j
      simp only [update_eval]
      by_cases hji : j = i
      · simp [hji, bodyish]
      · rw [if_neg hji]
        exact hs.exec_noBody hex2 j
    · intro j hj
      simp only [update_eval] at hj
      by_cases hji : j = i
      · simp [hji] at hj
      · rw [if_neg hji] at hj
        exact hs.body_zero j hj
  | waitEnter i hpc hexf hsig =>
    refine ⟨hs.fired_exec, ?_, ?_, ?_, ?_, ?_, hs.cnt⟩
    · intro j hj
      simp only [update_eval] at hj
      by_cases hji : j = i
      · simp [hji] at hj
      · rw [if_neg hji] at hj
        exact hs.resumed_fired j hj
    · intro hc
      replace hc : s.signalCreated = false := hc
      rw [hsig] at hc
      simp at hc
    · intro j k hj hk
      simp only [update_eval] at hj hk
      by_cases hji : j = i
      · simp [hji, bodyish] at hj
      · by_cases hki : k = i
        · simp [hki, bodyish] at hk
        · rw [if_neg hji] at hj
          rw [if_neg hki] at hk
          exact hs.uniq j k hj hk
    · intro hex2 _
      replace hex2 : s.executed = true := hex2
      rw [hexf] at hex2
      simp at hex2
    · intro j hj
      simp only [update_eval] at hj
      by_cases hji : j = i
      · simp [hji] at hj
      · rw [if_neg hji] at hj
        exact hs.body_zero j hj
  | acquire i hpc hexf hsigf =>
    have hstart := (hs.nosig hsigf).2.2
    refine ⟨fun hf => hs.fired_exec hf, ?_, ?_, ?_, ?_, ?_, hs.cnt⟩
    · intro j hj
      simp only [update_eval] at hj
      by_cases hji : j = i
      · simp [hji] at hj
      · rw [if_neg hji] at hj
        exact hs.resumed_fired j hj
    · intro hc
      replace hc : (true : Bool) = false := hc
      simp at hc
    · intro j k hj hk
      simp only [update_eval] at hj hk
      by_cases hji : j = i
      · by_cases hki : k = i
        · rw [hji, hki]
        · rw [if_neg hki, hstart k] at hk
          simp [bodyish] at hk
      · rw [if_neg hji, hstart j] at hj
        simp [bodyish] at hj
    · intro hex2 _
      replace hex2 : s.executed = true := hex2
      rw [hexf] at hex2
      simp at hex2
    · intro j _
      exact (hs.nosig hsigf).2.1
  | wake i hpc hfir =>
    refine ⟨hs.fired_exec, ?_, ?_, ?_, ?_, ?_, hs.cnt⟩
    · intro j hj
      simp only [update_eval] at hj
      by_cases hji : j = i
      · exact hfir
      · rw [if_neg hji] at hj
        exact hs.resumed_fired j hj
    · intro hc
      replace hc : s.signalCreated = false := hc
      have hst := (hs.nosig hc).2.2 i
      rw [hst] at hpc
      simp at hpc
    · intro j k hj hk
      simp only [update_eval] at hj hk
      by_cases hji : j = i
      · simp [hji, bodyish] at hj
      · by_cases hki : k = i
        · simp [hki, bodyish] at hk
        · rw [if_neg hji] at hj
          rw [if_neg hki] at hk
          exact hs.uniq j k hj hk
    · intro hex2 j
      simp only [update_eval]
      by_cases hji : j = i
      · simp [hji, bodyish]
      · rw [if_neg hji]
        exact hs.exec_noBody hex2 j
    · intro j hj
      simp only [update_eval] at hj
      by_cases hji : j = i
      · simp [hji] at hj
      · rw [if_neg hji] at hj
        exact hs.body_zero j hj
  | resumeMemo i hpc hex =>
    refine ⟨hs.fired_exec, ?_, ?_, ?_, ?_, ?_, hs.cnt⟩
    · intro j hj
      simp only [update_eval] at hj
      by_cases hji : j = i
      · simp [hji] at hj
      · rw [if_neg hji] at hj
        exact hs.resumed_fired j hj
    · intro hc
      replace hc : s.signalCreated = false := hc
      have h1 := (hs.nosig hc).1
      rw [h1] at hex
      simp at hex
    · intro j k hj hk
      simp only [update_eval] at hj hk
      by_cases hji : j = i
      · simp [hji, bodyish] at hj
      · by_cases hki : k = i
        · simp [hki, bodyish] at hk
        · rw [if_neg hji] at hj
          rw [if_neg hki] at hk
          exact hs.uniq j k hj hk
    · intro hex2 j
      simp only [update_eval]
      by_cases hji : j = i
      · simp [hji, bodyish]
      · rw [if_neg hji]
        exact hs.exec_noBody hex2 j
    · intro j hj
      simp only [update_eval] at hj
      by_cases hji : j = i
      · simp [hji] at hj
      · rw [if_neg hji] at hj
        exact hs.body_zero j hj
  | resumeRace i hpc hexf =>
    have hcontra := hs.fired_exec (hs.resumed_fired i hpc)
    rw [hexf] at hcontra
    simp at hcontra
  | execStep i hpc =>
    refine ⟨hs.fired_exec, ?_, ?_, ?_, ?_, ?_, ?_⟩
    · intro j hj
      simp only [update_eval] at hj
      by_cases hji : j = i
      · simp [hji] at hj
      · rw [if_neg hji] at hj
        exact hs.resumed_fired j hj
    · intro hc
      replace hc : s.signalCreated = false := hc
      have hst := (hs.nosig hc).2.2 i
      rw [hst] at hpc
      simp at hpc
    · intro j k hj hk
      simp only [update_eval] at hj hk
      by_cases hji : j = i
      · by_cases hki : k = i
        · rw [hji, hki]
        · rw [if_neg hki] at hk
          exact absurd (hs.uniq k i hk (by rw [hpc]; rfl)) hki
      · by_cases hki : k = i
        · rw [if_neg hji] at hj
          exact absurd (hs.uniq j i hj (by rw [hpc]; rfl)) hji
        · rw [if_neg hji] at hj
          rw [if_neg hki] at hk
          exact hs.uniq j k hj hk
    · intro hex2 j
      replace hex2 : s.executed = true := hex2
      have hnb := hs.exec_noBody hex2 i
      rw [hpc] at hnb
      simp [bodyish] at hnb
    · intro j hj
      simp only [update_eval] at hj
      by_cases hji : j = i
      · simp [hji] at hj
      · rw [if_neg hji] at hj
        exact absurd (hs.uniq j i (by rw [hj]; rfl) (by rw [hpc]; rfl)) hji
    · have hz := hs.body_zero i hpc
      show s.execCount + 1 ≤ 1
      omega
  | skipExec i hpc =>
    refine ⟨hs.fired_exec, ?_, ?_, ?_, ?_, ?_, hs.cnt⟩
    · intro j hj
      simp only [update_eval] at hj
      by_cases hji : j = i
      · simp [hji] at hj
      · rw [if_neg hji] at hj
        exact hs.resumed_fired j hj
    · intro hc
      replace hc : s.signalCreated = false := hc
      have hst := (hs.nosig hc).2.2 i
      rw [hst] at hpc
      simp at hpc
    · intro j k hj hk
      simp only [update_eval] at hj hk
      by_cases hji : j = i
      · by_cases hki : k = i
        · rw [hji, hki]
        · rw [if_neg hki] at hk
          exact absurd (hs.uniq k i hk (by rw [hpc]; rfl)) hki
      · by_cases hki : k = i
        · rw [if_neg hji] at hj
          exact absurd (hs.uniq j i hj (by rw [hpc]; rfl)) hji
        · rw [if_neg hji] at hj
          rw [if_neg hki] at hk
          exact hs.uniq j k hj hk
    · intro hex2 j
      replace hex2 : s.executed = true := hex2
      have hnb := hs.exec_noBody hex2 i
      rw [hpc] at hnb
      simp [bodyish] at hnb
    · intro j hj
      simp only [update_eval] at hj
      by_cases hji : j = i
      · simp [hji] at hj
      · rw [if_neg hji] at hj
        exact absurd (hs.uniq j i (by rw [hj]; rfl) (by rw [hpc]; rfl)) hji
  | finish i hpc =>
    refine ⟨fun _ => rfl, fun j _ => rfl, ?_, ?_, ?_, ?_, hs.cnt⟩
    · intro hc
      replace hc : s.signalCreated = false := hc
      have hst := (hs.nosig hc).2.2 i
      rw [hst] at hpc
      simp at hpc
    · intro j k hj hk
      simp only [update_eval] at hj hk
      by_cases hji : j = i
      · simp [hji, bodyish] at hj
      · by_cases hki : k = i
        · simp [hki, bodyish] at hk
        · rw [if_neg hji] at hj
          rw [if_neg hki] at hk
          exact hs.uniq j k hj hk
    · intro _ j
      simp only [update_eval]
      by_cases hji : j = i
      · simp [hji, bodyish]
      · rw [if_neg hji]
        cases hb : bodyish (s.pcs j) with
        | false => rfl
        | true => exact absurd (hs.uniq j i hb (by rw [hpc]; rfl)) hji
    · intro j hj
      simp only [update_eval] at hj
      by_cases hji : j = i
      · simp [hji] at hj
      · rw [if_neg hji] at hj
        exact absurd (hs.uniq j i (by rw [hj]; rfl) (by rw [hpc]; rfl)) hji

theorem reachable_inv {n : Nat} {s : SState n} (h : Reachable s) : Inv s := by
  induction h with
  | base => exact inv_init n
  | step _ hstep ih => exact inv_step ih hstep

/-- C2: in any reachable state of one driver run, no matter how many
coroutines call the builder's `run()` and in which interleaving,
`execute()` has been invoked at most once: the first caller creates the
completion signal and runs the protocol, later callers wait on the
signal or take the memoised path. -/
theorem execute_at_most_once {n : Nat} (s : SState n) (h : Reachable s) :
    s.execCount ≤ 1 :=
  (reachable_inv h).cnt

end Proto
end Drake

namespace Drake

/-- C2 witness: a concrete two-coroutine trace — the first caller
acquires the signal, executes and finishes, the second caller takes the
memoised path — ends with exactly one execution. -/
theorem execute_at_most_once_witness :
    Proto.SState.execCount
      { executed := true, signalCreated := true, fired := true, execCount := 1,
        pcs := Function.update (Function.update (Function.update (Function.update
          (fun _ : Fin 2 => Proto.PC.start)
          0 Proto.PC.body) 0 Proto.PC.finishing) 0 Proto.PC.done)
          1 Proto.PC.done } ≤ 1 := by
  have h0 : Proto.Reachable (Proto.init 2) := Proto.Reachable.base
  have h1 := Proto.Reachable.step h0
    (Proto.Step.acquire (Proto.init 2) 0 rfl rfl rfl)
  have h2 := Proto.Reachable.step h1
    (Proto.Step.execStep _ 0 (by simp [Proto.init]))
  have h3 := Proto.Reachable.step h2
    (Proto.Step.finish _ 0 (by simp [Proto.init]))
  have h4 := Proto.Reachable.step h3
    (Proto.Step.memo _ 1 (by simp [Proto.init, Function.update]) rfl)
  exact Proto.execute_at_most_once _ h4

end Drake
